import Mathlib

/-!
Verification development for the unifi-threat-sync repository.

The Go sources are shallowly embedded here:
- `internal/parser/utils.go` (`parseIPOrCIDR`) together with the parts of the
  Go standard library it calls (`net.ParseIP`, `net.ParseCIDR`,
  `net/netip.ParseAddr`, `net.IPNet.String`);
- `internal/parser/netset.go` (`PlainParser.parseBody`);
- `internal/normalizer/normalizer.go` (`Normalize`, `ToStrings`);
- `internal/sync` orchestrator (`Syncer.Run`, `Syncer.fetchAllFeeds`,
  `Syncer.calculateHash` with a full SHA-256 over `Nat` bytes).

Machine integers are modelled as `Nat` with explicit `% 2^w` where the Go code
stores into fixed-width bytes.  External collaborators (HTTP, the UniFi remote
client, the health recorder) appear as oracle values passed into the model, and
the calls the orchestrator makes against them are recorded in a trace.
-/

namespace UTS

/-! ### Decimal and hexadecimal rendering (Go `uitoa` / `appendHex`) -/

/-- One decimal digit character. -/
def decChar (n : Nat) : Char := Char.ofNat (48 + n % 10)

/-- One lowercase hexadecimal digit character. -/
def hexChar (n : Nat) : Char :=
  if n % 16 < 10 then Char.ofNat (48 + n % 16) else Char.ofNat (87 + n % 16)

/-- Fuel-driven decimal digit emission, most significant first. -/
def natToDecAux : Nat → Nat → List Char
  | 0, _ => []
  | fuel+1, n => if n < 10 then [decChar n] else natToDecAux fuel (n / 10) ++ [decChar (n % 10)]

/-- Decimal rendering of a natural number (Go `uitoa`). -/
def natToDec (n : Nat) : String := ⟨natToDecAux (n + 1) n⟩

/-- Fuel-driven hexadecimal digit emission, most significant first. -/
def natToHexAux : Nat → Nat → List Char
  | 0, _ => []
  | fuel+1, n => if n < 16 then [hexChar n] else natToHexAux fuel (n / 16) ++ [hexChar (n % 16)]

/-- Minimal lowercase hexadecimal rendering (Go `appendHex`): no leading zeros,
`0` renders as `"0"`. -/
def natToHex (n : Nat) : String := ⟨natToHexAux (n + 1) n⟩

/-! ### The Go `net.IP` / `net.IPNet` value model

A parsed Go IP is a 16-byte value; the program only ever distinguishes it
through `To4()`: either `To4() ≠ nil` (a 4-byte address or an IPv4-mapped
16-byte address, carrying a 32-bit value) or a 16-byte address that is not
IPv4-mapped (carrying a 128-bit value).  `GoIP.v4 a` is the first class and
`GoIP.v6 a` the second; `mkIP16` classifies a 16-byte value the way `To4()`
does (first 10 bytes zero, bytes 10–11 `0xff`, i.e. `a / 2^32 = 0xffff`). -/

inductive GoIP where
  | v4 (a : Nat)
  | v6 (a : Nat)
deriving DecidableEq, Repr

/-- Classify a 16-byte (128-bit) IP value as Go's `To4()` does. -/
def mkIP16 (a : Nat) : GoIP :=
  if a / 4294967296 = 65535 then .v4 (a % 4294967296) else .v6 a

/-- The IPv4-mapped 16-byte value of a 32-bit IPv4 value (`::ffff:a.b.c.d`). -/
def v4InV6 (a : Nat) : Nat := 65535 * 4294967296 + a

/-- Model of a Go `net.IPNet`: the stored IP, whether the stored `Mask` slice
has 4 bytes (`m4 = true`) or 16 bytes, and the number of leading one bits of
the mask (`CIDRMask` masks are always contiguous). -/
structure IPNet where
  ip : GoIP
  m4 : Bool
  bits : Nat
deriving DecidableEq, Repr

/-- Masking an address with a contiguous `CIDRMask(bits, w)` keeps the top
`bits` bits of a `w`-bit value, which is truncation arithmetic. -/
def maskTrunc (w bits x : Nat) : Nat := x / 2 ^ (w - bits) * 2 ^ (w - bits)

/-- Dotted-quad rendering of a 32-bit IPv4 value (Go `IP.String` via `To4`). -/
def renderIPv4 (a : Nat) : String :=
  natToDec (a / 16777216 % 256) ++ "." ++ natToDec (a / 65536 % 256) ++ "." ++
    natToDec (a / 256 % 256) ++ "." ++ natToDec (a % 256)

/-- The `i`-th (big-endian) 16-bit group of a 128-bit value, `i < 8`. -/
def group16 (a i : Nat) : Nat := a / 2 ^ (16 * (7 - i)) % 65536

/-- The eight 16-bit groups of a 128-bit value. -/
def groupsOf (a : Nat) : List Nat := (List.range 8).map (group16 a)

/-- Length of the run of zero groups at the head of the list. -/
def runLen : List Nat → Nat
  | [] => 0
  | g :: t => if g = 0 then runLen t + 1 else 0

/-- Scan of Go `IP.String`'s longest-zero-run search: the leftmost strictly
longest run wins.  Go only restarts the scan at run starts, but a run suffix is
strictly shorter than the full run already recorded, so scanning every start
index with a strictly-greater update is equivalent. -/
def bestRunAux : List Nat → Nat → Option (Nat × Nat) → Option (Nat × Nat)
  | [], _, best => best
  | gs@(_ :: t), i, best =>
    let r := runLen gs
    let cur := match best with | some p => p.2 | none => 0
    bestRunAux t (i + 1) (if cur < r then some (i, r) else best)

/-- The zero run Go elides with `::`, if any: runs of a single group are not
elided (`e1-e0 <= 2` bytes resets the candidate). -/
def bestRun (gs : List Nat) : Option (Nat × Nat) :=
  match bestRunAux gs 0 none with
  | some (i, r) => if r ≤ 1 then none else some (i, r)
  | none => none

/-- Group-by-group rendering of Go `IP.String` for a 16-byte address: at the
start of the elided run emit `"::"` and jump past it; otherwise a `":"`
separator precedes every group but the first emitted one. -/
def renderV6From (g : Nat → Nat) (e0 e1 : Nat) : Nat → Nat → String
  | 0, _ => ""
  | fuel+1, i =>
    if 8 ≤ i then ""
    else if i = e0 then
      "::" ++ (if 8 ≤ e1 then "" else natToHex (g e1) ++ renderV6From g e0 e1 fuel (e1 + 1))
    else
      (if i = 0 then "" else ":") ++ natToHex (g i) ++ renderV6From g e0 e1 fuel (i + 1)

/-- Go `IP.String` for a 16-byte address that is not IPv4-mapped. -/
def renderIPv6 (a : Nat) : String :=
  match bestRun (groupsOf a) with
  | some (e0, len) => renderV6From (group16 a) e0 (e0 + len) 16 0
  | none => renderV6From (group16 a) 8 8 16 0

/-- Go `IP.String` on the two `To4()` classes. -/
def GoIP.render : GoIP → String
  | .v4 a => renderIPv4 a
  | .v6 a => renderIPv6 a

/-- Model of Go `net.IPNet.String()`.  `networkNumberAndMask` turns a 16-byte
mask paired with a `To4() ≠ nil` address into the last 4 mask bytes, so the
printed length is `bits - 96` (truncated at 0) in that case; a 4-byte mask
paired with a non-IPv4 address yields `"<nil>"` (never produced by the
parsers). -/
def IPNet.goString (n : IPNet) : String :=
  match n.ip with
  | .v4 a => renderIPv4 a ++ "/" ++ natToDec (if n.m4 then n.bits else n.bits - 96)
  | .v6 a => if n.m4 then "<nil>" else renderIPv6 a ++ "/" ++ natToDec n.bits

/-! ### Text parsing: `netip.ParseAddr`, `net.ParseIP`, `net.ParseCIDR`

The repository targets a modern Go toolchain, where `net.ParseIP` and
`net.ParseCIDR` delegate address parsing to `net/netip.ParseAddr` and reject
any zone suffix. -/

/-- Value of a hexadecimal digit character, if it is one. -/
def hexVal? (c : Char) : Option Nat :=
  if '0' ≤ c ∧ c ≤ '9' then some (c.toNat - 48)
  else if 'a' ≤ c ∧ c ≤ 'f' then some (c.toNat - 87)
  else if 'A' ≤ c ∧ c ≤ 'F' then some (c.toNat - 55)
  else none

/-- Model of `netip.parseIPv4Fields`: dotted decimal, each octet `0..255`,
no octet with a leading zero, exactly four fields.  Carries the running octet
value, its digit count, the number of completed fields and those fields.
`digLen = 0` at a dot is exactly Go's `i == 0 || s[i-1] == '.'` condition. -/
def parseV4Aux : List Char → Nat → Nat → Nat → List Nat → Option (List Nat)
  | [], val, _, pos, fields =>
    if pos < 3 then none else some (fields ++ [val])
  | c :: rest, val, digLen, pos, fields =>
    if '0' ≤ c ∧ c ≤ '9' then
      if digLen = 1 ∧ val = 0 then none
      else
        let val' := val * 10 + (c.toNat - 48)
        if 255 < val' then none
        else parseV4Aux rest val' (digLen + 1) pos fields
    else if c = '.' then
      if digLen = 0 ∨ rest = [] ∨ pos = 3 then none
      else parseV4Aux rest 0 0 (pos + 1) (fields ++ [val])
    else none

/-- The 32-bit value stored into the four result bytes of `parseIPv4Fields`;
each field goes through a byte store, hence the `% 256` and the overall
`% 2^32` of the 4-byte array value. -/
def v4Val (fs : List Nat) : Nat :=
  fs.foldl (fun acc f => acc * 256 + f % 256) 0 % 4294967296

/-- Model of `netip.parseIPv4` producing the 32-bit value. -/
def parseIPv4Chars (s : List Char) : Option Nat :=
  (parseV4Aux s 0 0 0 []).map v4Val

/-- Hex-chunk scan of `netip.parseIPv6`: accumulate hex digits, failing when
the accumulator exceeds `0xffff`; return the accumulator, the digit count and
the unconsumed remainder. -/
def scanHexAux : List Char → Nat → Nat → Option (Nat × Nat × List Char)
  | [], acc, off => some (acc, off, [])
  | c :: rest, acc, off =>
    match hexVal? c with
    | none => some (acc, off, c :: rest)
    | some d =>
      let acc' := acc * 16 + d
      if 65535 < acc' then none else scanHexAux rest acc' (off + 1)

/-- Main loop of `netip.parseIPv6` in 16-bit group units (Go works in bytes;
`i` bytes is `i/2` groups).  Returns the groups parsed so far, the ellipsis
position and the unconsumed input; each iteration adds at least one group, so
fuel `9` covers every input.  The embedded-IPv4 branch re-parses the current
chunk from its start, mirroring `parseIPv4Fields(in, end-len(s), end, ...)`. -/
def p6Loop : Nat → List Char → List Nat → Option Nat → Option (List Nat × Option Nat × List Char)
  | 0, s, gs, ell => some (gs, ell, s)
  | fuel+1, s, gs, ell =>
    if 8 ≤ gs.length then some (gs, ell, s)
    else
      match scanHexAux s 0 0 with
      | none => none
      | some (acc, off, rest) =>
        if off = 0 then none
        else
          match rest with
          | '.' :: _ =>
            if (ell = none ∧ gs.length ≠ 6) ∨ 6 < gs.length then none
            else
              match parseIPv4Chars s with
              | none => none
              | some v => some (gs ++ [v / 65536, v % 65536], ell, [])
          | [] => some (gs ++ [acc], ell, [])
          | ':' :: rest' =>
            if rest' = [] then none
            else
              match rest' with
              | ':' :: rest'' =>
                if ell.isSome then none
                else if rest'' = [] then some (gs ++ [acc], some (gs.length + 1), [])
                else p6Loop fuel rest'' (gs ++ [acc]) (some (gs.length + 1))
              | _ => p6Loop fuel rest' (gs ++ [acc]) ell
          | _ => none

/-- The 128-bit value stored into the 16 result bytes from eight 16-bit
groups; each group goes through two byte stores, hence `% 65536`, and the
16-byte array value is `% 2^128`. -/
def groupsToNat (gs : List Nat) : Nat :=
  gs.foldl (fun acc g => acc * 65536 + g % 65536) 0 % 340282366920938463463374607431768211456

/-- Ellipsis expansion and final checks of `netip.parseIPv6`. -/
def p6Finish : Option (List Nat × Option Nat × List Char) → Option Nat
  | none => none
  | some (gs, ell, s) =>
    if s ≠ [] then none
    else if gs.length < 8 then
      match ell with
      | none => none
      | some e => some (groupsToNat (gs.take e ++ List.replicate (8 - gs.length) 0 ++ gs.drop e))
    else
      match ell with
      | some _ => none
      | none => some (groupsToNat gs)

/-- Model of `netip.parseIPv6` producing the 128-bit value.  A `%` zone
suffix makes `net.ParseIP` / `net.ParseCIDR` fail whether or not the address
part parses (an empty zone is a parse error, a non-empty zone is rejected by
the callers), so any input containing `%` is rejected here. -/
def parseIPv6Chars (s : List Char) : Option Nat :=
  if s.contains '%' then none
  else
    match s with
    | ':' :: ':' :: rest =>
      if rest = [] then some 0 else p6Finish (p6Loop 9 rest [] (some 0))
    | _ => p6Finish (p6Loop 9 s [] none)

/-- A parsed `netip.Addr` as the callers see it: `a4` parsed from dotted-quad
text (`BitLen` 32), `a6` parsed from IPv6 text (`BitLen` 128; the value may be
IPv4-mapped). -/
inductive AddrKind where
  | a4 (v : Nat)
  | a6 (v : Nat)
deriving DecidableEq, Repr

/-- Model of `netip.ParseAddr`: the first `.`, `:` or `%` in the string picks
the parser (`%` first is an immediate error). -/
def parseAddr (s : List Char) : Option AddrKind :=
  match s.find? (fun c => c = '.' || c = ':' || c = '%') with
  | some '.' => (parseIPv4Chars s).map .a4
  | some ':' => (parseIPv6Chars s).map .a6
  | _ => none

/-- Model of `net.ParseIP`: parse, reject zones (handled inside
`parseIPv6Chars`), and return the 16-byte value `As16`, classified by
`To4()`; a dotted-quad parse yields the IPv4-mapped 16-byte value. -/
def ParseIP (s : String) : Option GoIP :=
  match parseAddr s.data with
  | some (.a4 v) => some (mkIP16 (v4InV6 v))
  | some (.a6 v) => some (mkIP16 v)
  | none => none

/-- Model of Go `dtoi` combined with `ParseCIDR`'s `i == len(mask)` check:
the whole suffix must be decimal digits (leading zeros allowed), at least one
digit, and the accumulator must stay below `big = 0xFFFFFF`. -/
def dtoiAux : List Char → Nat → Option Nat
  | [], n => some n
  | c :: rest, n =>
    if '0' ≤ c ∧ c ≤ '9' then
      let n' := n * 10 + (c.toNat - 48)
      if 16777215 ≤ n' then none else dtoiAux rest n'
    else none

/-- Full-string `dtoi` (empty digit strings rejected). -/
def dtoiFull (s : List Char) : Option Nat :=
  match s with
  | [] => none
  | _ => dtoiAux s 0

/-- Split at the first `/`, as `ParseCIDR` does. -/
def splitFirstSlash : List Char → Option (List Char × List Char)
  | [] => none
  | c :: rest =>
    if c = '/' then some ([], rest)
    else (splitFirstSlash rest).map (fun p => (c :: p.1, p.2))

/-- Model of `net.ParseCIDR` (the `*IPNet` result): the address part decides
`BitLen` (32 for dotted-quad, 128 for IPv6 text); the prefix length is bounded
by `BitLen`; the stored IP is the address masked with `CIDRMask(n, BitLen)`,
classified by `To4()`; the stored mask has `BitLen/8` bytes. -/
def ParseCIDR (s : String) : Option IPNet :=
  match splitFirstSlash s.data with
  | none => none
  | some (addr, mask) =>
    match parseAddr addr with
    | some (.a4 v) =>
      match dtoiFull mask with
      | some n => if n ≤ 32 then some ⟨.v4 (maskTrunc 32 n v), true, n⟩ else none
      | none => none
    | some (.a6 v) =>
      match dtoiFull mask with
      | some n => if n ≤ 128 then some ⟨mkIP16 (maskTrunc 128 n v), false, n⟩ else none
      | none => none
    | none => none

/-! ### `internal/parser/utils.go` and line-level parsing -/

/-- Go `unicode.IsSpace`, written out over the code points it accepts. -/
def goIsSpace (c : Char) : Bool :=
  c.toNat == 32 || (Nat.ble 9 c.toNat && Nat.ble c.toNat 13) || c.toNat == 133 ||
    c.toNat == 160 || c.toNat == 5760 || (Nat.ble 8192 c.toNat && Nat.ble c.toNat 8202) ||
    c.toNat == 8232 || c.toNat == 8233 || c.toNat == 8239 || c.toNat == 8287 ||
    c.toNat == 12288

/-- Model of `strings.TrimSpace`. -/
def trimSpaceGo (s : String) : String :=
  ⟨((s.data.dropWhile goIsSpace).reverse.dropWhile goIsSpace).reverse⟩

/-- Model of `parseIPOrCIDR` in `internal/parser/utils.go`: trim, then
`ParseCIDR` when a `/` is present, else `ParseIP` widened to a full-length
mask (`/32` for `To4() ≠ nil`, `/128` otherwise).  Fallible Go returns are
modelled with `Option`. -/
def parseIPOrCIDR (s : String) : Option IPNet :=
  let t := trimSpaceGo s
  if t.data.contains '/' then ParseCIDR t
  else
    match ParseIP t with
    | none => none
    | some (.v4 a) => some ⟨.v4 a, true, 32⟩
    | some (.v6 a) => some ⟨.v6 a, false, 128⟩

/-- Structural character-list comparison backing `hasPrefixGo`. -/
def startsWithChars : List Char → List Char → Bool
  | _, [] => true
  | [], _ :: _ => false
  | c :: s, p :: ps => c = p && startsWithChars s ps

/-- Model of Go `strings.HasPrefix` (structurally recursive so that concrete
feed bodies evaluate inside the kernel). -/
def hasPrefixGo (s p : String) : Bool := startsWithChars s.data p.data

/-- Drop one trailing carriage return (`bufio.dropCR`). -/
def dropCR (l : List Char) : List Char :=
  if l.getLast? = some '\r' then l.dropLast else l

/-- Tokenisation of `bufio.Scanner` with `ScanLines`: the text before each
newline (minus one trailing `\r`), plus a final token for a non-empty
remainder after the last newline. -/
def splitLinesAux : List Char → List Char → List (List Char)
  | [], acc => if acc.isEmpty then [] else [dropCR acc.reverse]
  | '\n' :: rest, acc => dropCR acc.reverse :: splitLinesAux rest []
  | c :: rest, acc => splitLinesAux rest (c :: acc)

/-- The lines a `bufio.Scanner` yields for a body. -/
def splitLines (s : String) : List String :=
  (splitLinesAux s.data []).map (fun l => ⟨l⟩)

/-- Model of `PlainParser.parseBody` in `internal/parser/plain.go`: per line,
trim, skip blanks and `#`/`;`/`//` comment lines, silently skip unparseable
lines; zero surviving entries is an error.  (The reader is a pure string, so
`scanner.Err()` is always nil.) -/
def plainParseBody (body : String) : Except String (List IPNet) :=
  let networks := (splitLines body).foldl
    (fun acc lineRaw =>
      let line := trimSpaceGo lineRaw
      if line = "" then acc
      else if hasPrefixGo line "#" || hasPrefixGo line ";" || hasPrefixGo line "//" then acc
      else
        match parseIPOrCIDR line with
        | none => acc
        | some n => acc ++ [n])
    []
  if networks = [] then .error "no valid IPs found in feed" else .ok networks

/-! ### `internal/normalizer/normalizer.go` -/

/-- Model of `ToStrings`: project to canonical strings, preserving order. -/
def ToStrings (networks : List IPNet) : List String := networks.map IPNet.goString

/-- One `seen[key] = network` map write: replace the entry with the same
canonical string, or add a new key. -/
def upsert (acc : List IPNet) (x : IPNet) : List IPNet :=
  if acc.any (fun y => y.goString = x.goString) then
    acc.map (fun y => if y.goString = x.goString then x else y)
  else acc ++ [x]

/-- The contents of the `seen` map after inserting every input entry: one
entry per canonical string, the last write winning. -/
def dedupLast (l : List IPNet) : List IPNet := l.foldl upsert []

/-- The comparison `sort.Slice` is given: order by canonical string. -/
def keyLe (a b : IPNet) : Prop := a.goString ≤ b.goString

instance : DecidableRel keyLe :=
  fun a b => inferInstanceAs (Decidable (a.goString ≤ b.goString))

instance : IsTotal IPNet keyLe := ⟨fun a b => le_total a.goString b.goString⟩

instance : IsTrans IPNet keyLe := ⟨fun _ _ _ h1 h2 => le_trans (α := String) h1 h2⟩

/-- Model of `Normalize`: empty input is returned as is; otherwise the map
contents sorted by canonical string.  Go iterates the map in unspecified order
and `sort.Slice` is unstable, but all keys are distinct, so the sorted result
is the same list for every iteration order; insertion sort by `keyLe` realises
it. -/
def Normalize (networks : List IPNet) : List IPNet :=
  match networks with
  | [] => networks
  | _ => List.insertionSort keyLe (dedupLast networks)

/-! ### SHA-256 over `Nat` bytes (for `Syncer.calculateHash`) -/

/-- Word arithmetic is `% 2^32`. -/
def M32 : Nat := 4294967296

/-- Right rotation of a 32-bit value. -/
def rotr32 (r x : Nat) : Nat := x / 2 ^ r + x % 2 ^ r * 2 ^ (32 - r)

/-- Bitwise complement of a 32-bit value. -/
def bnot32 (x : Nat) : Nat := 4294967295 - x

/-- SHA-256 `Ch`. -/
def shaCh (e f g : Nat) : Nat := (e &&& f) ^^^ (bnot32 e &&& g)

/-- SHA-256 `Maj`. -/
def shaMaj (a b c : Nat) : Nat := (a &&& b) ^^^ (a &&& c) ^^^ (b &&& c)

/-- SHA-256 `Σ0`. -/
def bigSigma0 (x : Nat) : Nat := rotr32 2 x ^^^ rotr32 13 x ^^^ rotr32 22 x

/-- SHA-256 `Σ1`. -/
def bigSigma1 (x : Nat) : Nat := rotr32 6 x ^^^ rotr32 11 x ^^^ rotr32 25 x

/-- SHA-256 `σ0`. -/
def smallSigma0 (x : Nat) : Nat := rotr32 7 x ^^^ rotr32 18 x ^^^ x / 2 ^ 3

/-- SHA-256 `σ1`. -/
def smallSigma1 (x : Nat) : Nat := rotr32 17 x ^^^ rotr32 19 x ^^^ x / 2 ^ 10

/-- The SHA-256 round constants (FIPS 180-4, written in decimal). -/
def shaK : List Nat :=
  [1116352408, 1899447441, 3049323471, 3921009573, 961987163, 1508970993, 2453635748,
   2870763221, 3624381080, 310598401, 607225278, 1426881987, 1925078388, 2162078206,
   2614888103, 3248222580, 3835390401, 4022224774, 264347078, 604807628, 770255983,
   1249150122, 1555081692, 1996064986, 2554220882, 2821834349, 2952996808, 3210313671,
   3336571891, 3584528711, 113926993, 338241895, 666307205, 773529912, 1294757372,
   1396182291, 1695183700, 1986661051, 2177026350, 2456956037, 2730485921, 2820302411,
   3259730800, 3345764771, 3516065817, 3600352804, 4094571909, 275423344, 430227734,
   506948616, 659060556, 883997877, 958139571, 1322822218, 1537002063, 1747873779,
   1955562222, 2024104815, 2227730452, 2361852424, 2428436474, 2756734187, 3204031479,
   3329325298]

/-- SHA-256 working state. -/
structure H8 where
  a : Nat
  b : Nat
  c : Nat
  d : Nat
  e : Nat
  f : Nat
  g : Nat
  h : Nat
deriving DecidableEq, Repr

/-- The SHA-256 initial hash value (FIPS 180-4, written in decimal). -/
def shaInit : H8 :=
  ⟨1779033703, 3144134277, 1013904242, 2773480762, 1359893119, 2600822924, 528734635,
   1541459225⟩

/-- One SHA-256 compression round. -/
def shaRound (s : H8) (k w : Nat) : H8 :=
  let t1 := (s.h + bigSigma1 s.e + shaCh s.e s.f s.g + k + w) % M32
  let t2 := (bigSigma0 s.a + shaMaj s.a s.b s.c) % M32
  ⟨(t1 + t2) % M32, s.a, s.b, s.c, (s.d + t1) % M32, s.e, s.f, s.g⟩

/-- Big-endian byte rendering of a number into `k` bytes. -/
def toBytesBE (k n : Nat) : List Nat :=
  (List.range k).map (fun i => n / 256 ^ (k - 1 - i) % 256)

/-- Group a 64-byte block into sixteen big-endian 32-bit words. -/
def bytesToWords : List Nat → List Nat
  | b0 :: b1 :: b2 :: b3 :: rest =>
    (((b0 % 256 * 256 + b1 % 256) * 256 + b2 % 256) * 256 + b3 % 256) :: bytesToWords rest
  | _ => []

/-- Extend the sixteen block words to the 64-entry message schedule. -/
def extendSchedule : List Nat → Nat → List Nat
  | ws, 0 => ws
  | ws, fuel+1 =>
    let i := ws.length
    let w := (smallSigma1 (ws.getD (i - 2) 0) + ws.getD (i - 7) 0 +
      smallSigma0 (ws.getD (i - 15) 0) + ws.getD (i - 16) 0) % M32
    extendSchedule (ws ++ [w]) fuel

/-- Compress one 64-byte block into the running hash value. -/
def processBlock (h0 : H8) (block : List Nat) : H8 :=
  let ws := extendSchedule (bytesToWords block) 48
  let s := (shaK.zip ws).foldl (fun s kw => shaRound s kw.1 kw.2) h0
  ⟨(h0.a + s.a) % M32, (h0.b + s.b) % M32, (h0.c + s.c) % M32, (h0.d + s.d) % M32,
   (h0.e + s.e) % M32, (h0.f + s.f) % M32, (h0.g + s.g) % M32, (h0.h + s.h) % M32⟩

/-- SHA-256 padding: `0x80`, zeros, 8-byte big-endian bit length. -/
def padMessage (msg : List Nat) : List Nat :=
  msg ++ [128] ++ List.replicate ((64 - (msg.length + 9) % 64) % 64) 0 ++
    toBytesBE 8 (msg.length * 8)

/-- Split into 64-byte blocks (fuel is the list length). -/
def chunk64 : Nat → List Nat → List (List Nat)
  | 0, _ => []
  | _, [] => []
  | fuel+1, l => l.take 64 :: chunk64 fuel (l.drop 64)

/-- SHA-256 digest (32 bytes) of a byte sequence. -/
def sha256bytes (msg : List Nat) : List Nat :=
  let padded := padMessage msg
  let hf := (chunk64 padded.length padded).foldl processBlock shaInit
  toBytesBE 4 hf.a ++ toBytesBE 4 hf.b ++ toBytesBE 4 hf.c ++ toBytesBE 4 hf.d ++
    toBytesBE 4 hf.e ++ toBytesBE 4 hf.f ++ toBytesBE 4 hf.g ++ toBytesBE 4 hf.h

/-- UTF-8 encoding of one character (Go strings are UTF-8 bytes). -/
def utf8Char (c : Char) : List Nat :=
  let n := c.toNat
  if n < 128 then [n]
  else if n < 2048 then [192 + n / 64, 128 + n % 64]
  else if n < 65536 then [224 + n / 4096, 128 + n / 64 % 64, 128 + n % 64]
  else [240 + n / 262144, 128 + n / 4096 % 64, 128 + n / 64 % 64, 128 + n % 64]

/-- The UTF-8 bytes of a string (Go `[]byte(s)`). -/
def utf8Bytes (s : String) : List Nat := s.data.foldr (fun c acc => utf8Char c ++ acc) []

/-- Two lowercase hex digits of one byte (Go `hex.EncodeToString`). -/
def byteToHex (b : Nat) : List Char := [hexChar (b / 16 % 16), hexChar (b % 16)]

/-- Model of `hex.EncodeToString(sha256.Sum256([]byte(s)))`. -/
def sha256hex (s : String) : String :=
  ⟨(sha256bytes (utf8Bytes s)).foldr (fun b acc => byteToHex b ++ acc) []⟩

/-! ### The sync orchestrator (`internal/sync`, `Syncer.Run`) -/

/-- Outcome of handling one enabled feed inside `fetchAllFeeds`: the parser
lookup failed, the parse failed, or a list of entries was parsed. -/
inductive FeedResult where
  | unknownParser
  | parseError
  | parsed (networks : List IPNet)
deriving DecidableEq, Repr

/-- Model of `Syncer.fetchAllFeeds`: iterate the enabled feeds in order,
skipping lookup and parse failures, concatenating parsed entries; the error
result is literally `nil`. -/
def fetchAllFeeds (feeds : List FeedResult) : List IPNet × Option String :=
  (feeds.foldl
    (fun acc f =>
      match f with
      | .parsed networks => acc ++ networks
      | _ => acc)
    [], none)

/-- The entries `fetchAllFeeds` produces. -/
def fetchNets (feeds : List FeedResult) : List IPNet := (fetchAllFeeds feeds).1

/-- Model of `Syncer.calculateHash`: canonical strings, `sort.Strings`,
newline-joined, SHA-256, lowercase hex. -/
def calculateHash (networks : List IPNet) : String :=
  let strs := ToStrings networks
  let sorted := List.insertionSort (α := String) (· ≤ ·) strs
  let combined := sorted.foldl (fun acc str => acc ++ str ++ "\n") ""
  sha256hex combined

/-- Model of a `unifi.FirewallGroup`. -/
structure FirewallGroup where
  id : String
  name : String
  gtype : String
  members : List String
deriving DecidableEq, Repr

/-- Oracle for the remote-client collaborator: the outcome each call would
have if made during this cycle. -/
structure RemoteBehavior where
  getGroup : Except String FirewallGroup
  createGroup : Except String FirewallGroup
  updateGroup : Except String Unit

/-- One recorded remote-client call with its arguments. -/
inductive RemoteCall where
  | getGroup (name : String)
  | createGroup (name : String) (members : List String)
  | updateGroup (id : String) (members : List String)
deriving DecidableEq, Repr

/-- Observable outcome of one `Run` cycle: the returned error, the
`lastHash` state after the call, the remote calls made in order, and whether
`RecordSync` was invoked on the health recorder. -/
structure RunResult where
  error : Option String
  lastHash : String
  calls : List RemoteCall
  recordedSync : Bool
deriving DecidableEq, Repr

/-- Model of `Syncer.Run`: fetch, normalize, hash, compare with `lastHash`,
and on change get-then-create-or-update.  Any `GetFirewallGroup` error takes
the create path (the code prints "not found, creating" for every error);
create and update errors return before `s.lastHash` is assigned;
`RecordSync` fires only on the reconcile success path and only when a health
recorder is set. -/
def Run (groupName : String) (remote : RemoteBehavior) (hasRecorder : Bool)
    (feeds : List FeedResult) (lastHash : String) : RunResult :=
  match (fetchAllFeeds feeds).2 with
  | some e =>
    { error := some ("failed to fetch feeds: " ++ e), lastHash := lastHash, calls := [],
      recordedSync := false }
  | none =>
    let normalized := Normalize (fetchNets feeds)
    let currentHash := calculateHash normalized
    if currentHash = lastHash then
      { error := none, lastHash := lastHash, calls := [], recordedSync := false }
    else
      let members := ToStrings normalized
      match remote.getGroup with
      | .error _ =>
        match remote.createGroup with
        | .error e =>
          { error := some ("failed to create firewall group: " ++ e), lastHash := lastHash,
            calls := [.getGroup groupName, .createGroup groupName members],
            recordedSync := false }
        | .ok _ =>
          { error := none, lastHash := currentHash,
            calls := [.getGroup groupName, .createGroup groupName members],
            recordedSync := hasRecorder }
      | .ok grp =>
        match remote.updateGroup with
        | .error e =>
          { error := some ("failed to update firewall group: " ++ e), lastHash := lastHash,
            calls := [.getGroup groupName, .updateGroup grp.id members],
            recordedSync := false }
        | .ok _ =>
          { error := none, lastHash := currentHash,
            calls := [.getGroup groupName, .updateGroup grp.id members],
            recordedSync := hasRecorder }

/-! ### Lemmas about the normalizer -/

/-- Replacing the entries that share `x`'s canonical string by `x` keeps the
list of canonical strings unchanged. -/
theorem map_key_replace (acc : List IPNet) (x : IPNet) :
    (acc.map (fun y => if y.goString = x.goString then x else y)).map IPNet.goString =
      acc.map IPNet.goString := by
  induction acc with
  | nil => rfl
  | cons a t ih =>
    simp only [List.map_cons, ih, List.cons.injEq, and_true]
    by_cases h : a.goString = x.goString
    · simp [h]
    · simp [h]

/-- One map write preserves distinctness of the canonical strings. -/
theorem upsert_keys_nodup (acc : List IPNet) (x : IPNet)
    (h : (acc.map IPNet.goString).Nodup) : ((upsert acc x).map IPNet.goString).Nodup := by
  unfold upsert
  split
  · rw [map_key_replace]; exact h
  · next hno =>
    rw [List.map_append]
    simp only [List.nodup_append, List.map_cons, List.map_nil]
    refine ⟨h, List.nodup_singleton _, ?_⟩
    intro s hs hs'
    simp only [List.mem_singleton] at hs'
    subst hs'
    obtain ⟨y, hy, hkey⟩ := List.mem_map.mp hs
    exact hno (List.any_eq_true.mpr ⟨y, hy, decide_eq_true hkey⟩)

/-- The canonical strings present after one map write. -/
theorem upsert_keys_mem (acc : List IPNet) (x : IPNet) (s : String) :
    s ∈ (upsert acc x).map IPNet.goString ↔
      s ∈ acc.map IPNet.goString ∨ s = x.goString := by
  unfold upsert
  split
  · next hyes =>
    rw [map_key_replace]
    obtain ⟨y, hy, hkey⟩ := List.any_eq_true.mp hyes
    constructor
    · exact fun h => Or.inl h
    · rintro (h | rfl)
      · exact h
      · exact List.mem_map.mpr ⟨y, hy, of_decide_eq_true hkey⟩
  · simp [List.mem_append]

/-- Folding map writes keeps the canonical strings distinct. -/
theorem foldl_upsert_nodup (l : List IPNet) :
    ∀ acc : List IPNet, (acc.map IPNet.goString).Nodup →
      ((l.foldl upsert acc).map IPNet.goString).Nodup := by
  induction l with
  | nil => exact fun acc h => h
  | cons a t ih => exact fun acc h => ih (upsert acc a) (upsert_keys_nodup acc a h)

/-- The canonical strings after folding map writes are those of the
accumulator and of the inserted entries. -/
theorem foldl_upsert_mem (l : List IPNet) :
    ∀ (acc : List IPNet) (s : String),
      s ∈ (l.foldl upsert acc).map IPNet.goString ↔
        s ∈ acc.map IPNet.goString ∨ s ∈ l.map IPNet.goString := by
  induction l with
  | nil => simp
  | cons a t ih =>
    intro acc s
    rw [List.foldl_cons, ih (upsert acc a) s, upsert_keys_mem]
    simp only [List.map_cons, List.mem_cons]
    tauto

/-- The `seen` map holds one entry per canonical string. -/
theorem dedupLast_nodup (l : List IPNet) : ((dedupLast l).map IPNet.goString).Nodup :=
  foldl_upsert_nodup l [] List.nodup_nil

/-- The `seen` map holds exactly the canonical strings of the input. -/
theorem dedupLast_mem (l : List IPNet) (s : String) :
    s ∈ (dedupLast l).map IPNet.goString ↔ s ∈ l.map IPNet.goString := by
  rw [dedupLast, foldl_upsert_mem]
  simp

/-- `Normalize` is the sorted map contents for every input. -/
theorem Normalize_eq_sort (l : List IPNet) :
    Normalize l = List.insertionSort keyLe (dedupLast l) := by
  cases l <;> rfl

/-- The output of `Normalize` is sorted by canonical string. -/
theorem Normalize_sorted (l : List IPNet) : List.Sorted keyLe (Normalize l) := by
  rw [Normalize_eq_sort]
  exact List.sorted_insertionSort keyLe (dedupLast l)

/-- The output of `Normalize` has pairwise distinct canonical strings. -/
theorem Normalize_keys_nodup (l : List IPNet) :
    ((Normalize l).map IPNet.goString).Nodup := by
  rw [Normalize_eq_sort]
  exact ((List.perm_insertionSort keyLe (dedupLast l)).map IPNet.goString).nodup_iff.mpr
    (dedupLast_nodup l)

/-- C8: for every finite input sequence, the output of `Normalize` contains
no two entries with equal canonical strings and its canonical strings are
strictly increasing, and empty input yields empty output. -/
theorem normalize_dedup_sorted_empty :
    (∀ l : List IPNet,
      (Normalize l).Pairwise (fun a b => a.goString ≠ b.goString) ∧
      (Normalize l).Pairwise (fun a b => a.goString < b.goString)) ∧
    Normalize [] = [] := by
  refine ⟨fun l => ?_, rfl⟩
  have hnd : (Normalize l).Pairwise (fun a b => a.goString ≠ b.goString) :=
    (List.pairwise_map.mp (Normalize_keys_nodup l))
  refine ⟨hnd, ?_⟩
  exact ((Normalize_sorted l).and hnd).imp (fun h => lt_of_le_of_ne h.1 h.2)

/-- The canonical strings of `Normalize x` are a permutation of those of
`Normalize x'` whenever `x` is a permutation of `x'`. -/
theorem toStrings_normalize_perm (x x' : List IPNet) (h : x.Perm x') :
    (ToStrings (Normalize x)).Perm (ToStrings (Normalize x')) := by
  simp only [ToStrings]
  have sortside : ∀ l : List IPNet,
      ((Normalize l).map IPNet.goString).Perm ((dedupLast l).map IPNet.goString) := by
    intro l
    rw [Normalize_eq_sort]
    exact (List.perm_insertionSort keyLe (dedupLast l)).map _
  refine (sortside x).trans (.trans ?_ (sortside x').symm)
  rw [List.perm_ext_iff_of_nodup (dedupLast_nodup x) (dedupLast_nodup x')]
  intro s
  rw [dedupLast_mem, dedupLast_mem]
  exact (h.map IPNet.goString).mem_iff

/-- Sorting with `≤` sends permuted string lists to the same sorted list. -/
theorem insertionSort_eq_of_perm (s1 s2 : List String) (h : s1.Perm s2) :
    List.insertionSort (α := String) (· ≤ ·) s1 =
      List.insertionSort (α := String) (· ≤ ·) s2 :=
  List.eq_of_perm_of_sorted
    ((List.perm_insertionSort _ s1).trans (h.trans (List.perm_insertionSort _ s2).symm))
    (List.sorted_insertionSort _ s1) (List.sorted_insertionSort _ s2)

/-- C9: the fingerprint of the normalized set is invariant under permuting
the input entry sequence. -/
theorem fingerprint_order_independent (x x' : List IPNet) (h : x.Perm x') :
    calculateHash (Normalize x) = calculateHash (Normalize x') := by
  simp only [calculateHash]
  rw [insertionSort_eq_of_perm _ _ (toStrings_normalize_perm x x' h)]

/-- Witness for C9 at a concrete two-element swap. -/
theorem fingerprint_order_independent_witness :
    calculateHash (Normalize [⟨.v4 167772160, true, 8⟩, ⟨.v4 3232235777, true, 32⟩]) =
      calculateHash (Normalize [⟨.v4 3232235777, true, 32⟩, ⟨.v4 167772160, true, 8⟩]) :=
  fingerprint_order_independent _ _ (List.Perm.swap _ _ _)

/-! ### Canonical-form lemmas for `parseIPOrCIDR` -/

/-- The shape invariant every `IPNet` produced by the parsers satisfies: a
`To4() ≠ nil` value carries 32 bits, and a `GoIP.v6` value is never
IPv4-mapped (that is what `mkIP16` classifies). -/
def IPNet.WF (n : IPNet) : Prop :=
  match n.ip with
  | .v4 a => a < 4294967296
  | .v6 a => a / 4294967296 ≠ 65535

/-- The network an entry denotes, as a base address and prefix length in the
128-bit space with IPv4 embedded at the IPv4-mapped positions: a 4-byte mask
over a `To4()` value covers the top 96 bits implicitly.  Parser outputs store
the masked base address, so equality of this pair is equality of the denoted
network.  (A 4-byte mask on a 16-byte non-IPv4 value denotes nothing.) -/
def semNetwork (n : IPNet) : Option (Nat × Nat) :=
  match n.ip with
  | .v4 a => some (v4InV6 a, if n.m4 then 96 + n.bits else n.bits)
  | .v6 a => if n.m4 then none else some (a, n.bits)

/-- Shape of `mkIP16` when it classifies a value as `To4() ≠ nil`. -/
theorem mkIP16_v4 {z a : Nat} (h : mkIP16 z = .v4 a) : a = z % 4294967296 := by
  unfold mkIP16 at h
  split at h
  · exact (GoIP.v4.injEq _ _).mp h |>.symm
  · exact absurd h (by simp)

/-- Shape of `mkIP16` when it classifies a value as not IPv4-mapped. -/
theorem mkIP16_v6 {z a : Nat} (h : mkIP16 z = .v6 a) :
    a = z ∧ z / 4294967296 ≠ 65535 := by
  unfold mkIP16 at h
  split at h
  · exact absurd h (by simp)
  · next hne => exact ⟨((GoIP.v6.injEq _ _).mp h).symm, hne⟩

/-- Values produced by `parseIPv4Chars` are 32-bit. -/
theorem parseIPv4Chars_lt {s : List Char} {v : Nat} (h : parseIPv4Chars s = some v) :
    v < 4294967296 := by
  unfold parseIPv4Chars at h
  obtain ⟨fs, _, rfl⟩ := Option.map_eq_some'.mp h
  exact Nat.mod_lt _ (by norm_num)

/-- Values produced by `parseAddr` in the dotted-quad branch are 32-bit. -/
theorem parseAddr_a4_lt {s : List Char} {v : Nat} (h : parseAddr s = some (.a4 v)) :
    v < 4294967296 := by
  unfold parseAddr at h
  split at h
  · obtain ⟨w, hw, he⟩ := Option.map_eq_some'.mp h
    cases he
    exact parseIPv4Chars_lt hw
  · obtain ⟨w, _, he⟩ := Option.map_eq_some'.mp h
    cases he
  · exact absurd h (by simp)

/-- A `GoIP.v4` returned by `ParseIP` carries a 32-bit value. -/
theorem ParseIP_v4_lt {s : String} {a : Nat} (h : ParseIP s = some (.v4 a)) :
    a < 4294967296 := by
  unfold ParseIP at h
  split at h
  · rw [mkIP16_v4 (Option.some.inj h)]
    exact Nat.mod_lt _ (by norm_num)
  · rw [mkIP16_v4 (Option.some.inj h)]
    exact Nat.mod_lt _ (by norm_num)
  · exact absurd h (by simp)

/-- A `GoIP.v6` returned by `ParseIP` is never IPv4-mapped. -/
theorem ParseIP_v6_ne {s : String} {a : Nat} (h : ParseIP s = some (.v6 a)) :
    a / 4294967296 ≠ 65535 := by
  unfold ParseIP at h
  split at h
  · obtain ⟨rfl, hne⟩ := mkIP16_v6 (Option.some.inj h)
    exact hne
  · obtain ⟨rfl, hne⟩ := mkIP16_v6 (Option.some.inj h)
    exact hne
  · exact absurd h (by simp)

/-- Every `IPNet` produced by `ParseCIDR` satisfies the shape invariant. -/
theorem ParseCIDR_wf {s : String} {n : IPNet} (h : ParseCIDR s = some n) : n.WF := by
  unfold ParseCIDR at h
  split at h
  · exact absurd h (by simp)
  · split at h
    · next v heq =>
      split at h
      · split at h
        · cases Option.some.inj h
          exact lt_of_le_of_lt (Nat.div_mul_le_self _ _) (parseAddr_a4_lt heq)
        · exact absurd h (by simp)
      · exact absurd h (by simp)
    · next v heq =>
      split at h
      · split at h
        · cases Option.some.inj h
          show (IPNet.mk (mkIP16 (maskTrunc 128 _ v)) false _).WF
          unfold IPNet.WF
          cases hm : mkIP16 (maskTrunc 128 _ v) with
          | v4 a =>
            rw [mkIP16_v4 hm]
            exact Nat.mod_lt _ (by norm_num)
          | v6 a =>
            obtain ⟨rfl, hne⟩ := mkIP16_v6 hm
            exact hne
        · exact absurd h (by simp)
      · exact absurd h (by simp)
    · exact absurd h (by simp)

/-- C7 invariant carrier: every `IPNet` produced by `parseIPOrCIDR`
satisfies the shape invariant. -/
theorem parseIPOrCIDR_wf {s : String} {n : IPNet} (h : parseIPOrCIDR s = some n) :
    n.WF := by
  simp only [parseIPOrCIDR] at h
  split at h
  · exact ParseCIDR_wf h
  · split at h
    · exact absurd h (by simp)
    · next a heq =>
      cases Option.some.inj h
      exact ParseIP_v4_lt heq
    · next a heq =>
      cases Option.some.inj h
      exact ParseIP_v6_ne heq

/-- The IPv4-mapped embedding is injective. -/
theorem v4InV6_inj {a b : Nat} (h : v4InV6 a = v4InV6 b) : a = b := by
  unfold v4InV6 at h
  omega

/-- The IPv4-mapped embedding of a 32-bit value is IPv4-mapped. -/
theorem v4InV6_div {a : Nat} (ha : a < 4294967296) : v4InV6 a / 4294967296 = 65535 := by
  unfold v4InV6
  omega

/-- Entries with the shape invariant that denote the same network have
byte-identical canonical strings. -/
theorem goString_of_semNetwork {n1 n2 : IPNet} (h1 : n1.WF) (h2 : n2.WF)
    (h : semNetwork n1 = semNetwork n2) : n1.goString = n2.goString := by
  obtain ⟨ip1, m41, b1⟩ := n1
  obtain ⟨ip2, m42, b2⟩ := n2
  cases ip1 with
  | v4 a1 =>
    cases ip2 with
    | v4 a2 =>
      simp only [semNetwork, Option.some.injEq, Prod.mk.injEq] at h
      obtain ⟨heq, hb⟩ := h
      cases v4InV6_inj heq
      have hpr : (if m41 = true then b1 else b1 - 96) =
          (if m42 = true then b2 else b2 - 96) := by
        cases m41 <;> cases m42
        all_goals simp_all
        all_goals omega
      simp only [IPNet.goString, hpr]
    | v6 a2 =>
      exfalso
      have h1' : a1 < 4294967296 := h1
      have h2' : a2 / 4294967296 ≠ 65535 := h2
      cases m42 with
      | false =>
        simp only [semNetwork, if_neg, Bool.false_eq_true, if_false,
          Option.some.injEq, Prod.mk.injEq] at h
        exact h2' (h.1 ▸ v4InV6_div h1')
      | true => simp [semNetwork] at h
  | v6 a1 =>
    cases ip2 with
    | v4 a2 =>
      exfalso
      have h1' : a1 / 4294967296 ≠ 65535 := h1
      have h2' : a2 < 4294967296 := h2
      cases m41 with
      | false =>
        simp only [semNetwork, if_neg, Bool.false_eq_true, if_false,
          Option.some.injEq, Prod.mk.injEq] at h
        exact h1' (h.1.symm ▸ v4InV6_div h2')
      | true => simp [semNetwork] at h
    | v6 a2 =>
      cases m41 <;> cases m42 <;>
        simp_all [semNetwork, IPNet.goString]

/-- C7: two strings accepted by `parseIPOrCIDR` that denote the same network
yield byte-identical canonical strings; a bare IPv4 address canonicalizes with
`/32` and a bare IPv6 address with `/128`. -/
theorem parse_same_network_same_canonical :
    (∀ (s1 s2 : String) (n1 n2 : IPNet), parseIPOrCIDR s1 = some n1 →
      parseIPOrCIDR s2 = some n2 → semNetwork n1 = semNetwork n2 →
      n1.goString = n2.goString) ∧
    (parseIPOrCIDR "203.0.113.5").map IPNet.goString = some "203.0.113.5/32" ∧
    (parseIPOrCIDR "2001:db8::1").map IPNet.goString = some "2001:db8::1/128" := by
  refine ⟨fun s1 s2 n1 n2 hp1 hp2 hsem =>
    goString_of_semNetwork (parseIPOrCIDR_wf hp1) (parseIPOrCIDR_wf hp2) hsem, ?_, ?_⟩
  · rfl
  · rfl

/-- Witness for C7: a dotted-quad CIDR and the IPv4-mapped IPv6 spelling of
the same network parse to different representations with the same canonical
string. -/
theorem parse_same_network_same_canonical_witness :
    (IPNet.mk (.v4 3405803776) true 24).goString =
      (IPNet.mk (.v4 3405803776) false 120).goString :=
  parse_same_network_same_canonical.1 "203.0.113.0/24" "::ffff:203.0.113.0/120"
    (IPNet.mk (.v4 3405803776) true 24) (IPNet.mk (.v4 3405803776) false 120)
    (by decide) (by decide) (by decide)

/-! ### Lemmas about the orchestrator -/

/-- Unfolding of `Run`: the fetch stage never errors, so the cycle is the
hash comparison followed by the reconcile matches. -/
theorem Run_eq (gn : String) (rb : RemoteBehavior) (rec : Bool) (feeds : List FeedResult)
    (h0 : String) :
    Run gn rb rec feeds h0 =
      if calculateHash (Normalize (fetchNets feeds)) = h0 then
        { error := none, lastHash := h0, calls := [], recordedSync := false }
      else
        match rb.getGroup with
        | .error _ =>
          match rb.createGroup with
          | .error e =>
            { error := some ("failed to create firewall group: " ++ e), lastHash := h0,
              calls := [.getGroup gn,
                .createGroup gn (ToStrings (Normalize (fetchNets feeds)))],
              recordedSync := false }
          | .ok _ =>
            { error := none, lastHash := calculateHash (Normalize (fetchNets feeds)),
              calls := [.getGroup gn,
                .createGroup gn (ToStrings (Normalize (fetchNets feeds)))],
              recordedSync := rec }
        | .ok grp =>
          match rb.updateGroup with
          | .error e =>
            { error := some ("failed to update firewall group: " ++ e), lastHash := h0,
              calls := [.getGroup gn,
                .updateGroup grp.id (ToStrings (Normalize (fetchNets feeds)))],
              recordedSync := false }
          | .ok _ =>
            { error := none, lastHash := calculateHash (Normalize (fetchNets feeds)),
              calls := [.getGroup gn,
                .updateGroup grp.id (ToStrings (Normalize (fetchNets feeds)))],
              recordedSync := rec } := rfl

/-- A successful cycle always ends with `lastHash` equal to the hash of the
cycle's normalized entry set (either it already was, or it was assigned). -/
theorem run_success_hash (gn : String) (rb : RemoteBehavior) (rec : Bool)
    (feeds : List FeedResult) (h0 : String)
    (h : (Run gn rb rec feeds h0).error = none) :
    (Run gn rb rec feeds h0).lastHash = calculateHash (Normalize (fetchNets feeds)) := by
  rcases rb with ⟨gg, cg, ug⟩
  rw [Run_eq] at h ⊢
  by_cases hc : calculateHash (Normalize (fetchNets feeds)) = h0
  · rw [if_pos hc]
    exact hc.symm
  · rw [if_neg hc] at h ⊢
    cases gg with
    | error e =>
      cases cg with
      | error e2 => exact Option.noConfusion h
      | ok g => rfl
    | ok g =>
      cases ug with
      | error e2 => exact Option.noConfusion h
      | ok u => rfl

/-- The fetch-stage fold ignores failed feeds. -/
theorem foldl_fetch_all_fail :
    ∀ (feeds : List FeedResult) (acc : List IPNet),
      (∀ f ∈ feeds, f = FeedResult.unknownParser ∨ f = FeedResult.parseError) →
      feeds.foldl
        (fun acc f =>
          match f with
          | .parsed networks => acc ++ networks
          | _ => acc)
        acc = acc := by
  intro feeds
  induction feeds with
  | nil => intro acc _; rfl
  | cons a t ih =>
    intro acc h
    have ha := h a (List.mem_cons_self a t)
    have ht : ∀ f ∈ t, f = FeedResult.unknownParser ∨ f = FeedResult.parseError :=
      fun f hf => h f (List.mem_cons_of_mem a hf)
    rcases ha with rfl | rfl
    · exact ih acc ht
    · exact ih acc ht

/-- When every enabled feed fails, the fetch stage produces no entries. -/
theorem fetchNets_all_fail (feeds : List FeedResult)
    (h : ∀ f ∈ feeds, f = FeedResult.unknownParser ∨ f = FeedResult.parseError) :
    fetchNets feeds = [] := by
  unfold fetchNets fetchAllFeeds
  exact foldl_fetch_all_fail feeds [] h

/-- C2: `fetchAllFeeds` returns a nil error for every input, and when every
enabled feed fails and the empty fingerprint differs from `lastHash`, `Run`
reconciles the remote group with the empty member list (one get followed by
one create-or-update carrying `[]`). -/
theorem fetch_never_errors_empty_push :
    (∀ feeds, (fetchAllFeeds feeds).2 = none) ∧
    (∀ (gn : String) (rb : RemoteBehavior) (rec : Bool) (feeds : List FeedResult)
      (h0 : String),
      (∀ f ∈ feeds, f = FeedResult.unknownParser ∨ f = FeedResult.parseError) →
      calculateHash (Normalize []) ≠ h0 →
      (Run gn rb rec feeds h0).calls = [.getGroup gn, .createGroup gn []] ∨
        ∃ gid, (Run gn rb rec feeds h0).calls = [.getGroup gn, .updateGroup gid []]) := by
  refine ⟨fun feeds => rfl, fun gn rb rec feeds h0 hall hne => ?_⟩
  rcases rb with ⟨gg, cg, ug⟩
  rw [Run_eq, fetchNets_all_fail feeds hall, if_neg hne]
  cases gg with
  | error e => cases cg with
    | error e2 => exact Or.inl rfl
    | ok g => exact Or.inl rfl
  | ok g => cases ug with
    | error e2 => exact Or.inr ⟨g.id, rfl⟩
    | ok u => exact Or.inr ⟨g.id, rfl⟩

/-- Shared concrete entry `10.0.0.0/8` for witnesses. -/
def net10 : IPNet := ⟨.v4 167772160, true, 8⟩

/-- Shared concrete entry `192.168.1.1/32` for witnesses. -/
def net192 : IPNet := ⟨.v4 3232235777, true, 32⟩

/-- Shared concrete remote group for witnesses. -/
def grpX : FirewallGroup := ⟨"gid-1", "blocklist", "address-group", []⟩

/-- Witness for C2 with two failing feeds. -/
theorem fetch_never_errors_empty_push_witness :
    (Run "blocklist" ⟨.error "nf", .ok grpX, .ok ()⟩ true
        [FeedResult.unknownParser, FeedResult.parseError] "").calls =
        [.getGroup "blocklist", .createGroup "blocklist" []] ∨
      ∃ gid, (Run "blocklist" ⟨.error "nf", .ok grpX, .ok ()⟩ true
        [FeedResult.unknownParser, FeedResult.parseError] "").calls =
        [.getGroup "blocklist", .updateGroup gid []] :=
  fetch_never_errors_empty_push.2 "blocklist" ⟨.error "nf", .ok grpX, .ok ()⟩ true
    [FeedResult.unknownParser, FeedResult.parseError] "" (by decide) (by decide)

/-- Counterexample to C1: a `getGroup` failure that is not the not-found
error does not abort the cycle — the code treats every `getGroup` error as
not-found, creates the group, and the cycle succeeds. -/
theorem getGroup_error_not_fatal_cex :
    (Run "blocklist" ⟨.error "request failed: boom", .ok grpX, .ok ()⟩ false
        [.parsed [net10]] "").error = none ∧
    "request failed: boom" ≠ "group not found: blocklist" ∧
    (Run "blocklist" ⟨.error "request failed: boom", .ok grpX, .ok ()⟩ false
        [.parsed [net10]] "").calls =
      [.getGroup "blocklist", .createGroup "blocklist" ["10.0.0.0/8"]] :=
  ⟨rfl, by decide, rfl⟩

/-- Amended C1: during reconcile, every `getGroup` failure — not-found or
otherwise — routes to the create path with the normalized members, and the
cycle then fails exactly when the create call fails; when `getGroup` succeeds
and the update call fails, the cycle fails. -/
theorem getGroup_error_takes_create_path (gn : String) (rb : RemoteBehavior) (rec : Bool)
    (feeds : List FeedResult) (h0 : String)
    (hne : calculateHash (Normalize (fetchNets feeds)) ≠ h0) :
    (∀ e, rb.getGroup = .error e →
      (Run gn rb rec feeds h0).calls =
        [.getGroup gn, .createGroup gn (ToStrings (Normalize (fetchNets feeds)))] ∧
      ((Run gn rb rec feeds h0).error = none ↔ ∃ g, rb.createGroup = .ok g)) ∧
    (∀ g e, rb.getGroup = .ok g → rb.updateGroup = .error e →
      (Run gn rb rec feeds h0).error ≠ none) := by
  rcases rb with ⟨gg, cg, ug⟩
  constructor
  · intro e hg
    simp only at hg
    subst hg
    rw [Run_eq, if_neg hne]
    cases cg with
    | error e2 => exact ⟨rfl, by simp⟩
    | ok g => exact ⟨rfl, by simp⟩
  · intro g e hg hu
    simp only at hg hu
    subst hg
    subst hu
    rw [Run_eq, if_neg hne]
    simp

/-- Witness for the amended C1: with a failing `getGroup` and a failing
`createGroup`, the create is attempted and the cycle errors. -/
theorem getGroup_error_takes_create_path_witness :
    (Run "blocklist" ⟨.error "eX", .error "eY", .ok ()⟩ false [.parsed [net10]] "").calls =
      [.getGroup "blocklist",
        .createGroup "blocklist" (ToStrings (Normalize (fetchNets [.parsed [net10]])))] ∧
    ((Run "blocklist" ⟨.error "eX", .error "eY", .ok ()⟩ false
        [.parsed [net10]] "").error = none ↔
      ∃ g, (RemoteBehavior.mk (.error "eX") (.error "eY") (.ok ())).createGroup = .ok g) :=
  (getGroup_error_takes_create_path "blocklist" ⟨.error "eX", .error "eY", .ok ()⟩ false
    [.parsed [net10]] "" (by decide)).1 "eX" rfl

/-- Counterexample to C3: a successful no-change cycle with a health recorder
set does not invoke `RecordSync` — the early return skips it. -/
theorem nochange_success_skips_recordSync_cex :
    (Run "blocklist" ⟨.error "x", .error "y", .error "z"⟩ true []
        (calculateHash (Normalize (fetchNets [])))).error = none ∧
    (Run "blocklist" ⟨.error "x", .error "y", .error "z"⟩ true []
        (calculateHash (Normalize (fetchNets [])))).recordedSync = false :=
  ⟨rfl, rfl⟩

/-- Amended C3: `RecordSync` is invoked exactly on the successful cycles that
performed a reconcile (fingerprint changed) with a health recorder set; a
no-change success returns without notifying the recorder. -/
theorem recordSync_iff_reconciled (gn : String) (rb : RemoteBehavior) (rec : Bool)
    (feeds : List FeedResult) (h0 : String) :
    (Run gn rb rec feeds h0).recordedSync = true ↔
      rec = true ∧ (Run gn rb rec feeds h0).error = none ∧
        calculateHash (Normalize (fetchNets feeds)) ≠ h0 := by
  rcases rb with ⟨gg, cg, ug⟩
  rw [Run_eq]
  by_cases hc : calculateHash (Normalize (fetchNets feeds)) = h0
  · simp [hc]
  · rw [if_neg hc]
    cases gg with
    | error e =>
      cases cg with
      | error e2 => simp [hc]
      | ok g => simp [hc]
    | ok g =>
      cases ug with
      | error e2 => simp [hc]
      | ok u => simp [hc]

/-- C4: when the reconcile-stage remote call fails (create after a failed
get, or update after a successful get), `lastFingerprint` is unchanged and
the cycle surfaces an error. -/
theorem reconcile_failure_keeps_lastHash (gn : String) (rb : RemoteBehavior) (rec : Bool)
    (feeds : List FeedResult) (h0 : String)
    (hne : calculateHash (Normalize (fetchNets feeds)) ≠ h0)
    (hfail : ((∃ e, rb.getGroup = .error e) ∧ (∃ e, rb.createGroup = .error e)) ∨
      ((∃ g, rb.getGroup = .ok g) ∧ (∃ e, rb.updateGroup = .error e))) :
    (Run gn rb rec feeds h0).lastHash = h0 ∧ (Run gn rb rec feeds h0).error ≠ none := by
  rcases rb with ⟨gg, cg, ug⟩
  rcases hfail with ⟨⟨e1, hg⟩, ⟨e2, hcg⟩⟩ | ⟨⟨g, hg⟩, ⟨e2, hug⟩⟩
  · simp only at hg hcg
    subst hg
    subst hcg
    rw [Run_eq, if_neg hne]
    exact ⟨rfl, by simp⟩
  · simp only at hg hug
    subst hg
    subst hug
    rw [Run_eq, if_neg hne]
    exact ⟨rfl, by simp⟩

/-- Witness for C4 with a failing get and create. -/
theorem reconcile_failure_keeps_lastHash_witness :
    (Run "g" ⟨.error "e1", .error "e2", .ok ()⟩ true [.parsed [net10]] "").lastHash = "" ∧
    (Run "g" ⟨.error "e1", .error "e2", .ok ()⟩ true [.parsed [net10]] "").error ≠ none :=
  reconcile_failure_keeps_lastHash "g" ⟨.error "e1", .error "e2", .ok ()⟩ true
    [.parsed [net10]] "" (by decide) (Or.inl ⟨⟨"e1", rfl⟩, ⟨"e2", rfl⟩⟩)

/-- C5: after a successful cycle, a second cycle over the same feed content
makes zero remote calls and still succeeds. -/
theorem unchanged_second_run_no_remote_calls (gn : String) (rb1 rb2 : RemoteBehavior)
    (rec1 rec2 : Bool) (feeds : List FeedResult) (h0 : String)
    (h1 : (Run gn rb1 rec1 feeds h0).error = none) :
    (Run gn rb2 rec2 feeds (Run gn rb1 rec1 feeds h0).lastHash).calls = [] ∧
    (Run gn rb2 rec2 feeds (Run gn rb1 rec1 feeds h0).lastHash).error = none := by
  rw [run_success_hash gn rb1 rec1 feeds h0 h1, Run_eq, if_pos rfl]
  exact ⟨rfl, rfl⟩

/-- Witness for C5: a create-path success followed by a no-change cycle. -/
theorem unchanged_second_run_no_remote_calls_witness :
    (Run "g" ⟨.error "nf", .ok grpX, .ok ()⟩ true [.parsed [net10]]
        ((Run "g" ⟨.error "nf", .ok grpX, .ok ()⟩ true [.parsed [net10]] "").lastHash)).calls
      = [] ∧
    (Run "g" ⟨.error "nf", .ok grpX, .ok ()⟩ true [.parsed [net10]]
        ((Run "g" ⟨.error "nf", .ok grpX, .ok ()⟩ true [.parsed [net10]] "").lastHash)).error
      = none :=
  unchanged_second_run_no_remote_calls "g" ⟨.error "nf", .ok grpX, .ok ()⟩
    ⟨.error "nf", .ok grpX, .ok ()⟩ true true [.parsed [net10]] "" rfl

/-- C6: after a successful cycle, a second cycle whose normalized content
hashes differently performs exactly one of create or update, with `members`
equal to the new normalized canonical-string list. -/
theorem changed_second_run_single_reconcile (gn : String) (rb1 rb2 : RemoteBehavior)
    (rec1 rec2 : Bool) (feeds1 feeds2 : List FeedResult) (h0 : String)
    (h1 : (Run gn rb1 rec1 feeds1 h0).error = none)
    (hne : calculateHash (Normalize (fetchNets feeds2)) ≠
      calculateHash (Normalize (fetchNets feeds1))) :
    (Run gn rb2 rec2 feeds2 (Run gn rb1 rec1 feeds1 h0).lastHash).calls =
        [.getGroup gn, .createGroup gn (ToStrings (Normalize (fetchNets feeds2)))] ∨
    ∃ gid, (Run gn rb2 rec2 feeds2 (Run gn rb1 rec1 feeds1 h0).lastHash).calls =
        [.getGroup gn, .updateGroup gid (ToStrings (Normalize (fetchNets feeds2)))] := by
  rw [run_success_hash gn rb1 rec1 feeds1 h0 h1]
  rcases rb2 with ⟨gg, cg, ug⟩
  rw [Run_eq, if_neg hne]
  cases gg with
  | error e =>
    cases cg with
    | error e2 => exact Or.inl rfl
    | ok g => exact Or.inl rfl
  | ok g =>
    cases ug with
    | error e2 => exact Or.inr ⟨g.id, rfl⟩
    | ok u => exact Or.inr ⟨g.id, rfl⟩

/-- Witness for C6: content change from `10.0.0.0/8` to `192.168.1.1/32`,
second cycle on the update path. -/
theorem changed_second_run_single_reconcile_witness :
    (Run "g" ⟨.ok grpX, .error "c", .ok ()⟩ true [.parsed [net192]]
        ((Run "g" ⟨.error "nf", .ok grpX, .ok ()⟩ true [.parsed [net10]] "").lastHash)).calls =
        [.getGroup "g", .createGroup "g" (ToStrings (Normalize (fetchNets [.parsed [net192]])))] ∨
    ∃ gid, (Run "g" ⟨.ok grpX, .error "c", .ok ()⟩ true [.parsed [net192]]
        ((Run "g" ⟨.error "nf", .ok grpX, .ok ()⟩ true [.parsed [net10]] "").lastHash)).calls =
        [.getGroup "g", .updateGroup gid (ToStrings (Normalize (fetchNets [.parsed [net192]])))] :=
  changed_second_run_single_reconcile "g" ⟨.error "nf", .ok grpX, .ok ()⟩
    ⟨.ok grpX, .error "c", .ok ()⟩ true true [.parsed [net10]] [.parsed [net192]] ""
    rfl (by decide)

/-- C10: the five-line example body parses to exactly the two entries
`10.0.0.0/8` and `192.168.1.1/32`, in that order. -/
theorem plain_parser_example :
    (plainParseBody "# comment\n\n10.0.0.0/8\n;ignored\n192.168.1.1\n").map ToStrings =
      Except.ok ["10.0.0.0/8", "192.168.1.1/32"] := by rfl

end UTS
